import Mathlib

/-!
A shallow embedding of the report-generation helpers and driver of
`summarize.py` (shareabouts-cli-tools), together with proofs about them.

Python dictionaries holding the data relevant to each helper are modelled
by dedicated Lean structures; Python exceptions are modelled with
`Except PyErr`; Python string comparison (lexicographic by code point) is
modelled by an explicit comparison on `List Char`.
-/

/-- The Python exceptions that the modelled code can raise. -/
inductive PyErr where
  | keyError
  | typeError
  | valueError
  | attributeError
  | assertionError
deriving DecidableEq, Repr

instance {ε α : Type} [DecidableEq ε] [DecidableEq α] : DecidableEq (Except ε α) := fun a b =>
  match a, b with
  | .ok x, .ok y => if h : x = y then .isTrue (by rw [h]) else .isFalse (by simp [h])
  | .ok _, .error _ => .isFalse (by simp)
  | .error _, .ok _ => .isFalse (by simp)
  | .error x, .error y => if h : x = y then .isTrue (by rw [h]) else .isFalse (by simp [h])

/-- Strict lexicographic comparison of code-point lists: the semantics of
Python's `<` on strings. -/
def lexLt : List Char → List Char → Bool
  | [], [] => false
  | [], _ :: _ => true
  | _ :: _, [] => false
  | a :: as, b :: bs => if a < b then true else if b < a then false else lexLt as bs

/-- Non-strict lexicographic comparison of code-point lists: the semantics of
Python's `<=` on strings. -/
def lexLe : List Char → List Char → Bool
  | [], _ => true
  | _ :: _, [] => false
  | a :: as, b :: bs => if a < b then true else if b < a then false else lexLe as bs

/-- Python `a < b` on strings. -/
def pyStrLt (a b : String) : Bool := lexLt a.data b.data

/-- Python `a <= b` on strings. -/
def pyStrLe (a b : String) : Bool := lexLe a.data b.data

/-- The projection of an entry (a place or submission record) that
`_created_between` reads.  `top_created` is the value at the top-level key
`created_datetime` when that key is present; `props` is `none` when the key
`properties` is absent, and otherwise holds the value of
`properties['created_datetime']` when that inner key is present.  `payload`
stands for the rest of the record, so that distinct entries with equal dates
exist. -/
structure CEntry where
  top_created : Option String
  props : Option (Option String)
  payload : Nat := 0
deriving DecidableEq, Repr

/-- `get_created_date` from `_created_between` (src/summarize.py lines 59-63):
`try: return d['created_datetime'] except KeyError: return
d['properties']['created_datetime']`.  A `KeyError` raised by the fallback
lookup propagates. -/
def get_created_date (d : CEntry) : Except PyErr String :=
  match d.top_created with
  | some s => .ok s
  | none =>
    match d.props with
    | some (some s) => .ok s
    | _ => .error .keyError

/-- The filter predicate of `_created_between`: Python's chained comparison
`begin <= get_created_date(d) < end` on the already-computed date string. -/
def cbPred (b e s : String) : Bool := pyStrLe b s && pyStrLt s e

/-- `list(filter(lambda d: begin <= get_created_date(d) < end, context))`
(src/summarize.py line 65): evaluated left to right, the first exception
raised by `get_created_date` propagates. -/
def cbFilter (b e : String) : List CEntry → Except PyErr (List CEntry)
  | [] => .ok []
  | d :: rest =>
    match get_created_date d with
    | .error err => .error err
    | .ok s =>
      match cbFilter b e rest with
      | .error err => .error err
      | .ok tail => .ok (if cbPred b e s then d :: tail else tail)

/-- Outcome of a block helper: which of the two `options` callables it invoked
(`fn` with a derived context, or `inverse`) and with what argument. -/
inductive HCall (α : Type) where
  | fn (x : α)
  | inverse (x : α)
deriving DecidableEq, Repr

/-- `_created_between(this, options, begin, end, context=UNDEFINED)`
(src/summarize.py lines 48-71).  `context = none` models the `UNDEFINED`
default, in which case the current scope `this` is used. -/
def created_between (thisv : List CEntry) (b e : String)
    (context : Option (List CEntry)) : Except PyErr (HCall (List CEntry)) :=
  let ctx := match context with
    | none => thisv
    | some c => c
  if ctx.isEmpty then .ok (.inverse thisv)
  else
    match cbFilter b e ctx with
    | .error err => .error err
    | .ok filtered =>
      if filtered.length = 0 then .ok (.inverse thisv) else .ok (.fn filtered)

/-! ### Dates: the model of `datetime.date` used by `_created_within_days` -/

/-- A proleptic-Gregorian calendar date, as held by `datetime.date`. -/
structure PyDate where
  year : Nat
  month : Nat
  day : Nat
deriving DecidableEq, Repr

/-- Gregorian leap-year rule. -/
def isLeap (y : Nat) : Bool := y % 4 == 0 && (y % 100 != 0 || y % 400 == 0)

/-- Number of days in month `m` of year `y`. -/
def daysInMonth (y m : Nat) : Nat :=
  if m == 2 then (if isLeap y then 29 else 28)
  else if m == 4 || m == 6 || m == 9 || m == 11 then 30
  else 31

/-- The calendar day after `d`. -/
def nextDay (d : PyDate) : PyDate :=
  if d.day < daysInMonth d.year d.month then ⟨d.year, d.month, d.day + 1⟩
  else if d.month < 12 then ⟨d.year, d.month + 1, 1⟩
  else ⟨d.year + 1, 1, 1⟩

/-- The calendar day before `d`. -/
def prevDay (d : PyDate) : PyDate :=
  if 1 < d.day then ⟨d.year, d.month, d.day - 1⟩
  else if 1 < d.month then ⟨d.year, d.month - 1, daysInMonth d.year (d.month - 1)⟩
  else ⟨d.year - 1, 12, 31⟩

/-- `d + timedelta(days=n)` for `n ≥ 0`. -/
def addDaysN : Nat → PyDate → PyDate
  | 0, d => d
  | n + 1, d => addDaysN n (nextDay d)

/-- `d - timedelta(days=n)` for `n ≥ 0`. -/
def subDaysN : Nat → PyDate → PyDate
  | 0, d => d
  | n + 1, d => subDaysN n (prevDay d)

/-- `d - timedelta(days=n)` for an arbitrary integer `n` (a negative `n`
moves the date forward, as `timedelta` does). -/
def dateSubDays (d : PyDate) (n : Int) : PyDate :=
  if 0 ≤ n then subDaysN n.toNat d else addDaysN (-n).toNat d

/-- The low two decimal digits of `n`, as characters: the `%02d` field of
`date.isoformat` (months and days are below 100, so no digit is lost). -/
def pad2 (n : Nat) : List Char := [Nat.digitChar (n / 10 % 10), Nat.digitChar (n % 10)]

/-- The low four decimal digits of `n`, as characters: the `%04d` year field
of `date.isoformat` (`datetime.date` years are at most 9999). -/
def pad4 (n : Nat) : List Char :=
  [Nat.digitChar (n / 1000 % 10), Nat.digitChar (n / 100 % 10),
   Nat.digitChar (n / 10 % 10), Nat.digitChar (n % 10)]

/-- `date.isoformat()`: the ten-character string `YYYY-MM-DD`. -/
def isoformat (d : PyDate) : String :=
  ⟨pad4 d.year ++ '-' :: (pad2 d.month ++ '-' :: pad2 d.day)⟩

/-- Python string slicing `s[:n]` (per code point). -/
def pySlice (s : String) (n : Nat) : String := ⟨s.data.take n⟩

/-- `_created_within_days(this, options, daysago, context=UNDEFINED)`
(src/summarize.py lines 73-81): `end = date.today()`,
`begin = end - timedelta(days=daysago)`, then delegates to
`_created_between(this, options, begin.isoformat(), end.isoformat()[:10],
context=context)`.  `today` stands for `datetime.date.today()`. -/
def created_within_days (today : PyDate) (thisv : List CEntry) (daysago : Int)
    (context : Option (List CEntry)) : Except PyErr (HCall (List CEntry)) :=
  let e := today
  let b := dateSubDays e daysago
  created_between thisv (isoformat b) (pySlice (isoformat e) 10) context

/-! ### Place resolution: `get_place_data_for_url`, `_with_place`,
`_annotate_with_places` -/

/-- The template-safe serialized form of a place, as produced by
`Place.serialize` of the shareabouts_tool API.  Treated as opaque data. -/
structure PlaceSer where
  fields : List (String × String)
deriving DecidableEq, Repr

/-- A place record held by `dataset.places`. -/
structure Place where
  serialized : PlaceSer
deriving DecidableEq, Repr

/-- Modelled from the spec: `place.serialize()` of the shareabouts_tool API
(not under src/) "converts a Place to a template-safe plain nested
structure"; modelled as returning the place's stored serialized form. -/
def Place.serialize (p : Place) : PlaceSer := p.serialized

/-- The value of `n` read from its decimal digits. -/
def digitsVal (l : List Char) : Nat :=
  l.foldl (fun acc c => acc * 10 + (c.toNat - '0'.toNat)) 0

/-- Python `int(s)` on an optionally sign-prefixed decimal string; any other
shape raises `ValueError`.  (Full `int()` also strips whitespace and allows
underscores; the modelled URLs carry bare decimal segments.) -/
def pyInt (s : String) : Except PyErr Int :=
  match s.data with
  | '-' :: rest =>
    if !rest.isEmpty && rest.all Char.isDigit then .ok (-(digitsVal rest : Int))
    else .error .valueError
  | l =>
    if !l.isEmpty && l.all Char.isDigit then .ok (digitsVal l)
    else .error .valueError

/-- `url.rsplit('/', 1)[-1]`: the characters after the last `'/'`, or the
whole string when there is no `'/'`. -/
def lastSeg (s : String) : String :=
  ⟨s.data.foldl (fun acc c => if c = '/' then [] else acc ++ [c]) []⟩

/-- `get_place_data_for_url(url)` (src/summarize.py lines 31-35):
`place_id = int(url.rsplit('/', 1)[-1]); place = dataset.places.get(place_id);
return place.serialize() if place else None`.  The place store
`dataset.places` (shareabouts_tool, not under src/) is modelled as a finite
association list keyed by identifier, whose `get` never raises. -/
def get_place_data_for_url (places : List (Int × Place)) (url : String) :
    Except PyErr (Option PlaceSer) :=
  match pyInt (lastSeg url) with
  | .error e => .error e
  | .ok pid =>
    match (places.find? (fun q => q.1 == pid)).map (fun q => q.2) with
    | some p => .ok (some p.serialize)
    | none => .ok none

/-- `_with_place(this, options, url)` (src/summarize.py lines 37-45):
`return options['fn'](get_place_data_for_url(url))`. -/
def with_place (places : List (Int × Place)) (url : String) :
    Except PyErr (HCall (Option PlaceSer)) :=
  match get_place_data_for_url places url with
  | .error e => .error e
  | .ok ctx => .ok (.fn ctx)

/-- A Python value reachable from a submission context: `None`, a string, a
reference to a dictionary in the store, or a resolved serialized place. -/
inductive PyVal where
  | pynone
  | pystr (s : String)
  | pyref (r : Nat)
  | pyplace (p : PlaceSer)
deriving DecidableEq, Repr

/-- A Python dictionary: key/value pairs in insertion order. -/
abbrev Dict := List (String × PyVal)

/-- The heap of dictionary objects; a `PyVal.pyref r` denotes `store[r]`.
Allocation appends. -/
abbrev Store := List Dict

/-- `d[k]` on a dictionary: `KeyError` when absent. -/
def dictGet (d : Dict) (k : String) : Except PyErr PyVal :=
  match d.find? (fun kv => kv.1 == k) with
  | some kv => .ok kv.2
  | none => .error .keyError

/-- `d[k] = v` on a dictionary: replaces the value at an existing key in
place, appends a fresh key. -/
def dictSet (d : Dict) (k : String) (v : PyVal) : Dict :=
  if d.any (fun kv => kv.1 == k) then d.map (fun kv => if kv.1 == k then (k, v) else kv)
  else d ++ [(k, v)]

/-- Coerces the value `url` read from `submission['place']` to the string
`url.rsplit` needs; any non-string raises `AttributeError`. -/
def asStr : PyVal → Except PyErr String
  | .pystr s => .ok s
  | _ => .error .attributeError

/-- The Python value stored by `annotated_submission['place'] = ...`:
the serialized place, or `None` for a dangling reference. -/
def pyvalOfPlaceOpt : Option PlaceSer → PyVal
  | some p => .pyplace p
  | none => .pynone

/-- The loop body of `_annotate_with_places` (src/summarize.py lines 93-98):
for each `submission`, `annotated_submission = submission.copy() if submission
is not None else None` (the copy allocates a fresh dictionary), then
`annotated_submission['place'] = get_place_data_for_url(submission['place'])`.
For a `None` submission the subscript `submission['place']` raises
`TypeError`; for a non-dictionary submission `.copy()` raises
`AttributeError`. -/
def annotateLoop (places : List (Int × Place)) :
    Store → List PyVal → Except PyErr (Store × List PyVal)
  | store, [] => .ok (store, [])
  | store, submission :: rest =>
    match submission with
    | .pyref r =>
      match store[r]? with
      | some d =>
        let store1 := store ++ [d]
        let newRef := store.length
        match dictGet d "place" with
        | .error e => .error e
        | .ok urlv =>
          match asStr urlv with
          | .error e => .error e
          | .ok url =>
            match get_place_data_for_url places url with
            | .error e => .error e
            | .ok pc =>
              let store2 := store1.set newRef (dictSet d "place" (pyvalOfPlaceOpt pc))
              match annotateLoop places store2 rest with
              | .error e => .error e
              | .ok (store3, tail) => .ok (store3, .pyref newRef :: tail)
      | none => .error .typeError
    | .pynone => .error .typeError
    | _ => .error .attributeError

/-- `_annotate_with_places(this, options, context=UNDEFINED)`
(src/summarize.py lines 83-99): defaults the context to `this`, builds the
annotated list, and invokes `options['fn']` with it. -/
def annotate_with_places (places : List (Int × Place)) (thisv : List PyVal)
    (store : Store) (context : Option (List PyVal)) :
    Except PyErr (Store × HCall (List PyVal)) :=
  let ctx := match context with
    | none => thisv
    | some c => c
  match annotateLoop places store ctx with
  | .error e => .error e
  | .ok (store2, annotated) => .ok (store2, .fn annotated)

/-! ### The report driver `main` (src/summarize.py lines 104-189) and the
`__main__` block (lines 191-211) -/

/-- The `email` block of the run configuration. -/
structure EmailCfg where
  sender : String
  recipient : String
  subject : String
  bcc : String
deriving DecidableEq, Repr

/-- The run configuration fields `main` reads.  Download-only fields (host,
owner, dataset, credentials) feed the abstracted fetch phase. -/
structure Config where
  timezone : Option String
  email : Option EmailCfg
  postmarkapp_token : Option String
deriving DecidableEq, Repr

/-- The report configuration fields `main` reads. -/
structure Report where
  summary_template : Option String
  timezone : Option String
deriving DecidableEq, Repr

/-- Python `a or b` on optional strings: an absent or empty string is falsy. -/
def pyOr (a b : Option String) : Option String :=
  match a with
  | some s => if s = "" then b else some s
  | none => b

/-- `tzname = config.get('timezone') or report.get('timezone') or None`
(src/summarize.py line 132). -/
def resolve_tzname (config : Config) (report : Report) : Option String :=
  pyOr config.timezone (pyOr report.timezone none)

/-- The timezone object used for conversion. -/
inductive TzVal where
  | named (s : String)
  | utc
deriving DecidableEq, Repr

/-- `localtz = pytz.timezone(tzname) if tzname else pytz.utc` guarded by
`except pytz.exceptions.UnknownTimeZoneError` (src/summarize.py lines
133-140): `none` means the exception was raised.  `knownTz` stands for the
pytz database. -/
def localtzOf (knownTz : String → Bool) (config : Config) (report : Report) :
    Option TzVal :=
  match resolve_tzname config report with
  | some s => if knownTz s then some (.named s) else none
  | none => some .utc

/-- Observable steps of one `main` run, in order. -/
inductive Ev where
  | download
  | compile
  | diagUnknownTz
  | convert
  | render
  | printDoc
  | post
  | warnNonSuccess
deriving DecidableEq, Repr

/-- Python `s.strip()`: leading and trailing whitespace removed. -/
def pyStrip (s : String) : String :=
  ⟨((s.data.dropWhile Char.isWhitespace).reverse.dropWhile Char.isWhitespace).reverse⟩

/-- `main(config, report)` (src/summarize.py lines 104-189) as a trace of
events plus a result: `.ok n` models `return n`, `.error e` an uncaught
exception.  The fetch, the template file read, the rendering itself and the
HTTP POST are abstracted: `doc` is the rendered document and `postStatus` the
delivery response status.  The phases appear in source order: assert the
template path, download, compile, resolve the timezone (returning 1 on an
unknown name), convert times, render, print, build the email body
(`config['email'][...]` and `config['postmarkapp_token']` raise `KeyError`
when absent), and POST when the document is non-blank, warning on a
non-200 response. -/
def mainRun (knownTz : String → Bool) (config : Config) (report : Report)
    (doc : String) (postStatus : Nat) : List Ev × Except PyErr Nat :=
  match report.summary_template with
  | none => ([], .error .assertionError)
  | some tf =>
    if tf = "" then ([], .error .assertionError)
    else
      let evs := [Ev.download, Ev.compile]
      match localtzOf knownTz config report with
      | none => (evs ++ [Ev.diagUnknownTz], .ok 1)
      | some _tz =>
        let evs := evs ++ [Ev.convert, Ev.convert, Ev.convert, Ev.render, Ev.printDoc]
        match config.email with
        | none => (evs, .error .keyError)
        | some _em =>
          match config.postmarkapp_token with
          | none => (evs, .error .keyError)
          | some _tok =>
            if pyStrip doc ≠ "" then
              let evs := evs ++ [Ev.post]
              if postStatus ≠ 200 then (evs ++ [Ev.warnNonSuccess], .ok 0)
              else (evs, .ok 0)
            else (evs, .ok 0)

/-- The `__main__` block's `result = main(config, report) or 0;
sys.exit(result)` (src/summarize.py lines 210-211): the process exit code is
`main`'s return value, and 1 when an exception escapes (the interpreter
prints a traceback and exits 1). -/
def script_exit (r : Except PyErr Nat) : Nat :=
  match r with
  | .ok n => n
  | .error _ => 1

/-! ### Predicates used in the statements below -/

/-- Whether an entry passes `_created_between`'s filter: its created date
resolves and satisfies `begin <= date < end`. -/
def passes (b e : String) (d : CEntry) : Bool :=
  match get_created_date d with
  | .ok s => cbPred b e s
  | .error _ => false

/-- A date `datetime.date` can actually hold: month and day in range
(`datetime.date` additionally bounds the year by 9999, stated separately
where needed). -/
def ValidDate (d : PyDate) : Prop :=
  1 ≤ d.month ∧ d.month ≤ 12 ∧ 1 ≤ d.day ∧ d.day ≤ daysInMonth d.year d.month

instance (d : PyDate) : Decidable (ValidDate d) := by
  unfold ValidDate; infer_instance

/-- Chronological (year, month, day) order on dates. -/
def dateLt (a b : PyDate) : Prop :=
  a.year < b.year ∨ (a.year = b.year ∧
    (a.month < b.month ∨ (a.month = b.month ∧ a.day < b.day)))

/-- A well-formed submission for `_annotate_with_places`: a reference to a
dictionary in the store whose `place` key holds a URL with a parseable
trailing identifier. -/
def checkSub (store : Store) (v : PyVal) : Bool :=
  match v with
  | .pyref r =>
    match store[r]? with
    | some d =>
      match dictGet d "place" with
      | .ok (.pystr url) =>
        match pyInt (lastSeg url) with
        | .ok _ => true
        | .error _ => false
      | _ => false
    | none => false
  | _ => false

/-- What `_annotate_with_places` produces at index `i`: the output entry is a
fresh reference (at or beyond the original store) to a shallow copy of the
original submission dictionary whose `place` key now holds the resolved,
serialized place. -/
def AnnotatedAt (places : List (Int × Place)) (store store2 : Store)
    (ctx L : List PyVal) (i : Nat) : Prop :=
  ∃ r d url pc nr,
    ctx[i]? = some (.pyref r) ∧ store[r]? = some d ∧
    dictGet d "place" = .ok (.pystr url) ∧
    get_place_data_for_url places url = .ok pc ∧
    L[i]? = some (.pyref nr) ∧ store.length ≤ nr ∧
    store2[nr]? = some (dictSet d "place" (pyvalOfPlaceOpt pc))


/-! ## Lexicographic string order: basic facts -/

theorem lexLt_irrefl (l : List Char) : lexLt l l = false := by
  induction l with
  | nil => rfl
  | cons c cs ih => simp [lexLt, lt_irrefl, ih]

theorem lexLt_asymm {a b : List Char} (h : lexLt a b = true) : lexLt b a = false := by
  induction a generalizing b with
  | nil => cases b with
    | nil => simp [lexLt] at h
    | cons y ys => rfl
  | cons x xs ih =>
    cases b with
    | nil => simp [lexLt] at h
    | cons y ys =>
      simp only [lexLt] at h ⊢
      rcases lt_trichotomy x y with hxy | hxy | hxy
      · simp [hxy, asymm hxy, not_lt_of_lt hxy]
      · subst hxy
        simp only [lt_irrefl, if_false] at h ⊢
        exact ih h
      · simp [hxy, asymm hxy, not_lt_of_lt hxy] at h

theorem lexLt_trans {a b c : List Char} (hab : lexLt a b = true)
    (hbc : lexLt b c = true) : lexLt a c = true := by
  induction a generalizing b c with
  | nil =>
    cases b with
    | nil => simp [lexLt] at hab
    | cons y ys =>
      cases c with
      | nil => simp [lexLt] at hbc
      | cons z zs => rfl
  | cons x xs ih =>
    cases b with
    | nil => simp [lexLt] at hab
    | cons y ys =>
      cases c with
      | nil => simp [lexLt] at hbc
      | cons z zs =>
        simp only [lexLt] at hab hbc ⊢
        rcases lt_trichotomy x y with h1 | h1 | h1
        · rcases lt_trichotomy y z with h2 | h2 | h2
          · simp [lt_trans h1 h2]
          · subst h2; simp [h1]
          · simp [h2, asymm h2, not_lt_of_lt h2] at hbc
        · subst h1
          rcases lt_trichotomy x z with h2 | h2 | h2
          · simp [h2]
          · subst h2
            simp only [lt_irrefl, if_false] at hab hbc ⊢
            exact ih hab hbc
          · simp [h2, asymm h2, not_lt_of_lt h2] at hbc
        · simp [h1, asymm h1, not_lt_of_lt h1] at hab

theorem lexLe_eq {a b : List Char} : lexLe a b = true ↔ (lexLt a b = true ∨ a = b) := by
  induction a generalizing b with
  | nil => cases b with
    | nil => simp [lexLe, lexLt]
    | cons y ys => simp [lexLe, lexLt]
  | cons x xs ih =>
    cases b with
    | nil => simp [lexLe, lexLt]
    | cons y ys =>
      simp only [lexLe, lexLt]
      rcases lt_trichotomy x y with h1 | h1 | h1
      · simp [h1]
      · subst h1
        simp only [lt_irrefl, if_false, List.cons.injEq, true_and]
        exact ih
      · simp only [if_neg (asymm h1), if_pos h1]
        constructor
        · intro hfalse; exact absurd hfalse (by simp)
        · rintro (hfalse | ⟨rfl, rfl⟩)
          · exact absurd hfalse (by simp)
          · exact absurd h1 (lt_irrefl _)

theorem not_lexLt_append (l : List Char) (c : Char) (cs : List Char) :
    lexLt (l ++ c :: cs) l = false := by
  induction l with
  | nil => rfl
  | cons a as ih => simp [lexLt, lt_irrefl, ih]

theorem lexLt_append_of_lt {l1 l2 : List Char} (t1 t2 : List Char)
    (hlen : l1.length = l2.length) (h : lexLt l1 l2 = true) :
    lexLt (l1 ++ t1) (l2 ++ t2) = true := by
  induction l1 generalizing l2 with
  | nil =>
    cases l2 with
    | nil => simp [lexLt] at h
    | cons y ys => simp at hlen
  | cons x xs ih =>
    cases l2 with
    | nil => simp at hlen
    | cons y ys =>
      simp only [lexLt, List.cons_append] at h ⊢
      rcases lt_trichotomy x y with h1 | h1 | h1
      · simp [h1]
      · subst h1
        simp only [lt_irrefl, if_false] at h ⊢
        exact ih (by simpa using hlen) h
      · simp [h1, asymm h1, not_lt_of_lt h1] at h

theorem lexLt_append_left (l : List Char) {t1 t2 : List Char}
    (h : lexLt t1 t2 = true) : lexLt (l ++ t1) (l ++ t2) = true := by
  induction l with
  | nil => exact h
  | cons a as ih => simp [lexLt, lt_irrefl, ih]

theorem lexLt_cons_same (c : Char) (x y : List Char) :
    lexLt (c :: x) (c :: y) = lexLt x y := by
  simp [lexLt, lt_irrefl]

/-! ## Characterizations of `_created_between` -/

theorem get_created_date_isOk {d : CEntry} (h : (get_created_date d).isOk = true) :
    ∃ s, get_created_date d = Except.ok s := by
  cases hd : get_created_date d with
  | ok s => exact ⟨s, rfl⟩
  | error e => rw [hd] at h; simp [Except.isOk, Except.toBool] at h

theorem cbFilter_ok (b e : String) (l : List CEntry)
    (h : ∀ d ∈ l, (get_created_date d).isOk = true) :
    cbFilter b e l = Except.ok (l.filter (passes b e)) := by
  induction l with
  | nil => rfl
  | cons d rest ih =>
    obtain ⟨s, hs⟩ := get_created_date_isOk (h d (List.mem_cons_self d rest))
    have hrest := ih (fun x hx => h x (List.mem_cons_of_mem d hx))
    cases hc : cbPred b e s <;>
      simp [cbFilter, hs, hrest, List.filter_cons, passes, hc]

theorem mem_filter_passes {b e : String} {ctx : List CEntry} {d : CEntry} :
    d ∈ ctx.filter (passes b e) ↔
      d ∈ ctx ∧ ∃ s, get_created_date d = Except.ok s ∧
        pyStrLe b s = true ∧ pyStrLt s e = true := by
  rw [List.mem_filter]
  constructor
  · rintro ⟨hmem, hp⟩
    refine ⟨hmem, ?_⟩
    unfold passes at hp
    cases hd : get_created_date d with
    | ok s =>
      rw [hd] at hp
      have hp' : cbPred b e s = true := hp
      unfold cbPred at hp'
      obtain ⟨h1, h2⟩ := Bool.and_eq_true _ _ |>.mp hp'
      exact ⟨s, rfl, h1, h2⟩
    | error err => rw [hd] at hp; simp at hp
  · rintro ⟨hmem, s, hs, h1, h2⟩
    refine ⟨hmem, ?_⟩
    simp [passes, hs, cbPred, h1, h2]

theorem created_between_eq (thisv : List CEntry) (b e : String)
    (context : Option (List CEntry)) (ctx : List CEntry)
    (hctx : ctx = match context with | none => thisv | some c => c)
    (hok : ∀ d ∈ ctx, (get_created_date d).isOk = true) :
    created_between thisv b e context =
      if (ctx.filter (passes b e)).isEmpty then Except.ok (.inverse thisv)
      else Except.ok (.fn (ctx.filter (passes b e))) := by
  simp only [created_between]
  rw [← hctx]
  by_cases hempty : ctx.isEmpty
  · rw [List.isEmpty_iff] at hempty
    subst hempty
    simp
  · rw [if_neg hempty, cbFilter_ok b e ctx hok]
    by_cases hf : (ctx.filter (passes b e)).isEmpty
    · rw [if_pos hf]
      rw [List.isEmpty_iff] at hf
      simp [hf]
    · rw [if_neg hf]
      rw [List.isEmpty_iff] at hf
      simp [List.length_eq_zero, hf]

theorem cbFilter_fn_mem {b e : String} {ctx L : List CEntry}
    (h : cbFilter b e ctx = Except.ok L) :
    ∀ d ∈ L, ∃ s, get_created_date d = Except.ok s ∧ cbPred b e s = true := by
  induction ctx generalizing L with
  | nil =>
    simp only [cbFilter, Except.ok.injEq] at h
    subst h
    intro d hd
    simp at hd
  | cons a rest ih =>
    simp only [cbFilter] at h
    cases ha : get_created_date a with
    | error err => rw [ha] at h; simp at h
    | ok s =>
      rw [ha] at h
      cases hrest : cbFilter b e rest with
      | error err => rw [hrest] at h; simp at h
      | ok tail =>
        rw [hrest] at h
        simp only [Except.ok.injEq] at h
        subst h
        intro d hd
        by_cases hp : cbPred b e s = true
        · rw [if_pos hp] at hd
          rcases List.mem_cons.mp hd with rfl | hd2
          · exact ⟨s, ha, hp⟩
          · exact ih hrest d hd2
        · rw [if_neg hp] at hd
          exact ih hrest d hd

theorem created_between_fn_inv {thisv : List CEntry} {b e : String}
    {context : Option (List CEntry)} {L : List CEntry}
    (h : created_between thisv b e context = Except.ok (.fn L)) :
    ∀ d ∈ L, ∃ s, get_created_date d = Except.ok s ∧ cbPred b e s = true := by
  unfold created_between at h
  generalize hg : (match context with | none => thisv | some c => c) = ctx at h
  by_cases hempty : ctx.isEmpty
  · rw [if_pos hempty] at h
    simp at h
  · rw [if_neg hempty] at h
    cases hf : cbFilter b e ctx with
    | error err => rw [hf] at h; simp at h
    | ok filtered =>
      rw [hf] at h
      have h' : (if filtered.length = 0 then Except.ok (HCall.inverse thisv)
          else Except.ok (HCall.fn filtered)) = Except.ok (HCall.fn L) := h
      by_cases hl : filtered.length = 0
      · rw [if_pos hl] at h'; simp at h'
      · rw [if_neg hl] at h'
        simp only [Except.ok.injEq, HCall.fn.injEq] at h'
        subst h'
        exact cbFilter_fn_mem hf

theorem cbPred_false_of_after {b e : String} (h : pyStrLt e b = true) (s : String) :
    cbPred b e s = false := by
  cases hc : cbPred b e s
  · rfl
  · exfalso
    unfold cbPred pyStrLe pyStrLt at hc
    obtain ⟨h1, h2⟩ := Bool.and_eq_true _ _ |>.mp hc
    unfold pyStrLt at h
    rcases lexLe_eq.mp h1 with hlt | heq
    · have hbe : lexLt b.data e.data = true := lexLt_trans hlt h2
      rw [lexLt_asymm hbe] at h
      exact Bool.false_ne_true h
    · rw [← heq] at h2
      rw [lexLt_asymm h2] at h
      exact Bool.false_ne_true h

/-! ## C1 and C2: `_created_between` -/

/-- C1: for every context whose entries' created dates resolve and for all
date strings `begin` and `end`, `_created_between`'s filtered list contains
exactly those entries whose created date — the top-level `created_datetime`,
else `properties.created_datetime` — satisfies `begin <= date < end` in
Python's string order; an entry dated exactly `begin` satisfies the left
bound, and an entry dated exactly `end` fails the right bound. -/
theorem created_between_filters_exactly (b e : String) (ctx : List CEntry)
    (h : ∀ d ∈ ctx, (get_created_date d).isOk = true) :
    ∃ L, cbFilter b e ctx = Except.ok L ∧
      ∀ d, d ∈ L ↔ d ∈ ctx ∧ ∃ s, get_created_date d = Except.ok s ∧
        pyStrLe b s = true ∧ pyStrLt s e = true :=
  ⟨ctx.filter (passes b e), cbFilter_ok b e ctx h, fun _ => mem_filter_passes⟩

/-- Witness for C1 at a concrete corpus: an entry dated exactly `begin`
(kept), one drawn from `properties.created_datetime` inside the window
(kept), and one dated exactly `end` (dropped). -/
theorem created_between_filters_exactly_witness :
    (∀ d ∈ [CEntry.mk (some "2024-01-01") none 0,
            CEntry.mk none (some (some "2024-01-03")) 1,
            CEntry.mk (some "2024-01-05") none 2], (get_created_date d).isOk = true) ∧
    (∃ L, cbFilter "2024-01-01" "2024-01-05"
        [CEntry.mk (some "2024-01-01") none 0,
         CEntry.mk none (some (some "2024-01-03")) 1,
         CEntry.mk (some "2024-01-05") none 2] = Except.ok L ∧
      ∀ d, d ∈ L ↔ d ∈ [CEntry.mk (some "2024-01-01") none 0,
            CEntry.mk none (some (some "2024-01-03")) 1,
            CEntry.mk (some "2024-01-05") none 2] ∧
        ∃ s, get_created_date d = Except.ok s ∧
          pyStrLe "2024-01-01" s = true ∧ pyStrLt s "2024-01-05" = true) ∧
    cbFilter "2024-01-01" "2024-01-05"
        [CEntry.mk (some "2024-01-01") none 0,
         CEntry.mk none (some (some "2024-01-03")) 1,
         CEntry.mk (some "2024-01-05") none 2] =
      Except.ok [CEntry.mk (some "2024-01-01") none 0,
                 CEntry.mk none (some (some "2024-01-03")) 1] :=
  ⟨by decide, created_between_filters_exactly _ _ _ (by decide), by decide⟩

/-- C2 counterexample: with current scope `this = []` and an explicit,
fully-excluded context `[entry dated 2020-06-01]` distinct from `this`,
`_created_between` invokes `inverse` with `this` (here `[]`), not with the
original unfiltered context, refuting the claim that the inverse callable
receives the original unfiltered context when an explicit context distinct
from `this` is supplied. -/
theorem created_between_inverse_counterexample :
    created_between [] "2021-01-01" "2022-01-01"
        (some [CEntry.mk (some "2020-06-01") none 0]) = Except.ok (.inverse [])
    ∧ ([] : List CEntry) ≠ [CEntry.mk (some "2020-06-01") none 0] :=
  ⟨by decide, by decide⟩

/-- C2 (amended): on an empty or fully-excluded effective context,
`_created_between` invokes `inverse` with the current scope `this` — which is
the original unfiltered context only when no explicit context is supplied —
and it never invokes `fn` with an empty list; when at least one entry passes,
`fn` receives the filtered list. -/
theorem created_between_inverse_behavior (thisv : List CEntry) (b e : String)
    (context : Option (List CEntry)) (ctx : List CEntry)
    (hctx : ctx = match context with | none => thisv | some c => c)
    (hok : ∀ d ∈ ctx, (get_created_date d).isOk = true) :
    (created_between thisv b e context =
      if (ctx.filter (passes b e)).isEmpty then Except.ok (.inverse thisv)
      else Except.ok (.fn (ctx.filter (passes b e))))
    ∧ ∀ L, created_between thisv b e context = Except.ok (.fn L) → L ≠ [] := by
  have hmain := created_between_eq thisv b e context ctx hctx hok
  refine ⟨hmain, fun L hL => ?_⟩
  rw [hmain] at hL
  by_cases hf : (ctx.filter (passes b e)).isEmpty
  · rw [if_pos hf] at hL
    exact absurd hL (by simp)
  · rw [if_neg hf] at hL
    rw [List.isEmpty_iff] at hf
    intro hnil
    apply hf
    simp only [Except.ok.injEq, HCall.fn.injEq] at hL
    rw [hL, hnil]

/-- Witness for C2 (amended): the counterexample scenario, where the fully
excluded explicit context falls to `inverse this`. -/
theorem created_between_inverse_behavior_witness :
    (created_between [] "2021-01-01" "2022-01-01"
        (some [CEntry.mk (some "2020-06-01") none 0]) =
      if (([CEntry.mk (some "2020-06-01") none 0].filter
            (passes "2021-01-01" "2022-01-01"))).isEmpty
      then Except.ok (.inverse [])
      else Except.ok (.fn ([CEntry.mk (some "2020-06-01") none 0].filter
            (passes "2021-01-01" "2022-01-01"))))
    ∧ ∀ L, created_between [] "2021-01-01" "2022-01-01"
        (some [CEntry.mk (some "2020-06-01") none 0]) = Except.ok (.fn L) → L ≠ [] :=
  created_between_inverse_behavior [] "2021-01-01" "2022-01-01"
    (some [CEntry.mk (some "2020-06-01") none 0])
    [CEntry.mk (some "2020-06-01") none 0] rfl (by decide)

/-! ## Decimal formatting and calendar stepping -/

theorem digitChar_mono : ∀ a, a < 10 → ∀ b, b < 10 → a < b →
    Nat.digitChar a < Nat.digitChar b := by decide

theorem pad2_mono {a b : Nat} (ha : a < 100) (hb : b < 100) (h : a < b) :
    lexLt (pad2 a) (pad2 b) = true := by
  rcases lt_trichotomy (a / 10 % 10) (b / 10 % 10) with h1 | h1 | h1
  · have hc := digitChar_mono _ (Nat.mod_lt _ (by norm_num)) _
      (Nat.mod_lt _ (by norm_num)) h1
    simp [pad2, lexLt, hc]
  · have h2 : a % 10 < b % 10 := by omega
    have hc := digitChar_mono _ (Nat.mod_lt _ (by norm_num)) _
      (Nat.mod_lt _ (by norm_num)) h2
    simp [pad2, lexLt, h1, lt_irrefl, hc]
  · omega

theorem pad4_mono {a b : Nat} (ha : a < 10000) (hb : b < 10000) (h : a < b) :
    lexLt (pad4 a) (pad4 b) = true := by
  rcases lt_trichotomy (a / 1000 % 10) (b / 1000 % 10) with h1 | h1 | h1
  · have hc := digitChar_mono _ (Nat.mod_lt _ (by norm_num)) _
      (Nat.mod_lt _ (by norm_num)) h1
    simp [pad4, lexLt, hc]
  · rcases lt_trichotomy (a / 100 % 10) (b / 100 % 10) with h2 | h2 | h2
    · have hc := digitChar_mono _ (Nat.mod_lt _ (by norm_num)) _
        (Nat.mod_lt _ (by norm_num)) h2
      simp [pad4, lexLt, h1, lt_irrefl, hc]
    · rcases lt_trichotomy (a / 10 % 10) (b / 10 % 10) with h3 | h3 | h3
      · have hc := digitChar_mono _ (Nat.mod_lt _ (by norm_num)) _
          (Nat.mod_lt _ (by norm_num)) h3
        simp [pad4, lexLt, h1, h2, lt_irrefl, hc]
      · have h4 : a % 10 < b % 10 := by omega
        have hc := digitChar_mono _ (Nat.mod_lt _ (by norm_num)) _
          (Nat.mod_lt _ (by norm_num)) h4
        simp [pad4, lexLt, h1, h2, h3, lt_irrefl, hc]
      · omega
    · omega
  · omega

theorem daysInMonth_pos (y m : Nat) : 1 ≤ daysInMonth y m := by
  unfold daysInMonth
  split
  · split <;> omega
  · split <;> omega

theorem daysInMonth_le (y m : Nat) : daysInMonth y m ≤ 31 := by
  unfold daysInMonth
  split
  · split <;> omega
  · split <;> omega

theorem nextDay_valid {d : PyDate} (h : ValidDate d) : ValidDate (nextDay d) := by
  obtain ⟨h1, h2, h3, h4⟩ := h
  unfold nextDay
  split
  · exact ⟨h1, h2, by show 1 ≤ d.day + 1; omega,
      by show d.day + 1 ≤ daysInMonth d.year d.month; omega⟩
  · split
    · exact ⟨by show 1 ≤ d.month + 1; omega, by show d.month + 1 ≤ 12; omega,
        Nat.le_refl 1, (daysInMonth_pos d.year (d.month + 1) :)⟩
    · exact ⟨Nat.le_refl 1, by show (1 : Nat) ≤ 12; omega, Nat.le_refl 1,
        (daysInMonth_pos (d.year + 1) 1 :)⟩

theorem nextDay_year (d : PyDate) : d.year ≤ (nextDay d).year := by
  unfold nextDay
  split
  · exact Nat.le_refl _
  · split
    · exact Nat.le_refl _
    · exact Nat.le_succ _

theorem dateLt_nextDay (d : PyDate) : dateLt d (nextDay d) := by
  unfold nextDay
  split
  · exact Or.inr ⟨rfl, Or.inr ⟨rfl, Nat.lt_succ_self _⟩⟩
  · split
    · exact Or.inr ⟨rfl, Or.inl (Nat.lt_succ_self _)⟩
    · exact Or.inl (Nat.lt_succ_self _)

theorem dateLt_trans {a b c : PyDate} (h1 : dateLt a b) (h2 : dateLt b c) :
    dateLt a c := by
  unfold dateLt at *
  omega

theorem addDaysN_valid (k : Nat) {d : PyDate} (h : ValidDate d) :
    ValidDate (addDaysN k d) := by
  induction k generalizing d with
  | zero => exact h
  | succ n ih => exact ih (nextDay_valid h)

theorem addDaysN_year (k : Nat) (d : PyDate) : d.year ≤ (addDaysN k d).year := by
  induction k generalizing d with
  | zero => exact le_refl _
  | succ n ih => exact le_trans (nextDay_year d) (ih (nextDay d))

theorem dateLt_addDaysN (k : Nat) {d : PyDate} (hk : 1 ≤ k) (h : ValidDate d) :
    dateLt d (addDaysN k d) := by
  induction k generalizing d with
  | zero => omega
  | succ n ih =>
    cases n with
    | zero => exact dateLt_nextDay d
    | succ m =>
      exact dateLt_trans (dateLt_nextDay d) (ih (by omega) (nextDay_valid h))

/-! ## `date.isoformat` respects the calendar order -/

theorem pad4_length (n : Nat) : (pad4 n).length = 4 := rfl

theorem pad2_length (n : Nat) : (pad2 n).length = 2 := rfl

theorem isoformat_data (d : PyDate) :
    (isoformat d).data = pad4 d.year ++ '-' :: (pad2 d.month ++ '-' :: pad2 d.day) := rfl

theorem isoformat_mono {a b : PyDate} (hva : ValidDate a) (hvb : ValidDate b)
    (hya : a.year ≤ 9999) (hyb : b.year ≤ 9999) (h : dateLt a b) :
    pyStrLt (isoformat a) (isoformat b) = true := by
  obtain ⟨ha1, ha2, ha3, ha4⟩ := hva
  obtain ⟨hb1, hb2, hb3, hb4⟩ := hvb
  have hm100a : a.month < 100 := by omega
  have hm100b : b.month < 100 := by omega
  have hd100a : a.day < 100 := by have := daysInMonth_le a.year a.month; omega
  have hd100b : b.day < 100 := by have := daysInMonth_le b.year b.month; omega
  show lexLt (isoformat a).data (isoformat b).data = true
  rw [isoformat_data, isoformat_data]
  rcases h with hy | ⟨hy, hm | ⟨hm, hd⟩⟩
  · exact lexLt_append_of_lt _ _ (by rw [pad4_length, pad4_length])
      (pad4_mono (by omega) (by omega) hy)
  · rw [hy]
    apply lexLt_append_left
    rw [lexLt_cons_same]
    exact lexLt_append_of_lt _ _ (by rw [pad2_length, pad2_length])
      (pad2_mono hm100a hm100b hm)
  · rw [hy, hm]
    apply lexLt_append_left
    rw [lexLt_cons_same]
    apply lexLt_append_left
    rw [lexLt_cons_same]
    exact pad2_mono hd100a hd100b hd

theorem pySlice_isoformat (d : PyDate) : pySlice (isoformat d) 10 = isoformat d := rfl

/-! ## C3 and C10: `_created_within_days` -/

/-- C3: `_created_within_days(daysago)` returns exactly what
`_created_between(begin, end)` returns with `end = today` at date-only
precision and `begin = today - daysago` days; and a negative `daysago` puts
`begin` after `end`, the filter passes nothing, and the inverse branch is
taken.  The hypotheses are `datetime.date`'s own invariants: the dates are
calendar-valid with years at most 9999. -/
theorem created_within_days_delegates (today : PyDate) (thisv : List CEntry)
    (daysago : Int) (context : Option (List CEntry)) (ctx : List CEntry)
    (hctx : ctx = match context with | none => thisv | some c => c)
    (hok : ∀ d ∈ ctx, (get_created_date d).isOk = true)
    (hv : ValidDate today)
    (hy : (dateSubDays today daysago).year ≤ 9999) :
    created_within_days today thisv daysago context
      = created_between thisv (isoformat (dateSubDays today daysago))
          (isoformat today) context
    ∧ (daysago < 0 →
        created_within_days today thisv daysago context
          = Except.ok (.inverse thisv)) := by
  have hdeleg : created_within_days today thisv daysago context
      = created_between thisv (isoformat (dateSubDays today daysago))
          (isoformat today) context := rfl
  refine ⟨hdeleg, fun hneg => ?_⟩
  have hk : 1 ≤ (-daysago).toNat := by omega
  have hsub : dateSubDays today daysago = addDaysN (-daysago).toNat today := by
    unfold dateSubDays
    rw [if_neg (by omega)]
  have hlt : dateLt today (dateSubDays today daysago) := by
    rw [hsub]; exact dateLt_addDaysN _ hk hv
  have hvb : ValidDate (dateSubDays today daysago) := by
    rw [hsub]; exact addDaysN_valid _ hv
  have hytoday : today.year ≤ 9999 := by
    have h2 := addDaysN_year (-daysago).toNat today
    rw [← hsub] at h2
    omega
  have hmono : pyStrLt (isoformat today) (isoformat (dateSubDays today daysago)) = true :=
    isoformat_mono hv hvb hytoday hy hlt
  have hfilter : ctx.filter
      (passes (isoformat (dateSubDays today daysago)) (isoformat today)) = [] := by
    apply List.filter_eq_nil_iff.mpr
    intro d hd
    cases hdd : get_created_date d with
    | ok s =>
      have hps : passes (isoformat (dateSubDays today daysago)) (isoformat today) d
          = cbPred (isoformat (dateSubDays today daysago)) (isoformat today) s := by
        unfold passes; rw [hdd]
      rw [hps, cbPred_false_of_after hmono s]
      simp
    | error err =>
      have hps : passes (isoformat (dateSubDays today daysago)) (isoformat today) d
          = false := by
        unfold passes; rw [hdd]
      rw [hps]
      simp
  rw [hdeleg, created_between_eq thisv _ _ context ctx hctx hok, hfilter]
  simp

/-- Witness for C3: `today = 2024-01-10`, `daysago = -3`; the helper
delegates and, the window being inverted, falls to the inverse branch. -/
theorem created_within_days_delegates_witness :
    (created_within_days ⟨2024, 1, 10⟩ [CEntry.mk (some "2024-01-05") none 0] (-3) none
      = created_between [CEntry.mk (some "2024-01-05") none 0]
          (isoformat (dateSubDays ⟨2024, 1, 10⟩ (-3))) (isoformat ⟨2024, 1, 10⟩) none)
    ∧ ((-3 : Int) < 0 →
        created_within_days ⟨2024, 1, 10⟩ [CEntry.mk (some "2024-01-05") none 0] (-3) none
          = Except.ok (.inverse [CEntry.mk (some "2024-01-05") none 0])) :=
  created_within_days_delegates ⟨2024, 1, 10⟩ [CEntry.mk (some "2024-01-05") none 0]
    (-3) none [CEntry.mk (some "2024-01-05") none 0] rfl (by decide) (by decide) (by decide)

/-- C10: because `_created_within_days` passes the end bound as a date-only
string while entries carry full ISO datetimes, and `_created_between`
compares strings lexicographically, an entry whose created date is today's
date followed by a time component (`isoformat today ++ "T" ++ r`) compares
at or above the end bound and never appears in the block's filtered list. -/
theorem created_within_days_excludes_today (today : PyDate) (thisv : List CEntry)
    (daysago : Int) (context : Option (List CEntry)) (L : List CEntry)
    (h : created_within_days today thisv daysago context = Except.ok (.fn L)) :
    ∀ d ∈ L, ∀ r : String,
      get_created_date d ≠ Except.ok (isoformat today ++ "T" ++ r) := by
  intro d hd r hcontra
  have h' : created_between thisv (isoformat (dateSubDays today daysago))
      (isoformat today) context = Except.ok (.fn L) := h
  obtain ⟨s, hs, hpred⟩ := created_between_fn_inv h' d hd
  have hseq : s = isoformat today ++ "T" ++ r := by
    have h2 := hs.symm.trans hcontra
    injection h2
  subst hseq
  unfold cbPred at hpred
  obtain ⟨h1, h2⟩ := Bool.and_eq_true _ _ |>.mp hpred
  unfold pyStrLt at h2
  have hdata : (isoformat today ++ "T" ++ r).data
      = (isoformat today).data ++ 'T' :: r.data := by
    rw [String.data_append, String.data_append,
      show ("T" : String).data = ['T'] from rfl, List.append_assoc]
    rfl
  rw [hdata, not_lexLt_append] at h2
  exact Bool.false_ne_true h2

/-- Witness for C10: on `today = 2024-01-10` with `daysago = 7`, a corpus
holding an in-window entry and a same-day entry `2024-01-10T08:00:00`
produces a block containing only the in-window entry, and no entry of the
block is dated on the current day. -/
theorem created_within_days_excludes_today_witness :
    created_within_days ⟨2024, 1, 10⟩
        [CEntry.mk (some "2024-01-05") none 0,
         CEntry.mk (some "2024-01-10T08:00:00") none 1] 7 none
      = Except.ok (.fn [CEntry.mk (some "2024-01-05") none 0])
    ∧ ∀ d ∈ [CEntry.mk (some "2024-01-05") none 0], ∀ r : String,
        get_created_date d ≠ Except.ok (isoformat ⟨2024, 1, 10⟩ ++ "T" ++ r) :=
  ⟨by decide, created_within_days_excludes_today ⟨2024, 1, 10⟩
    [CEntry.mk (some "2024-01-05") none 0,
     CEntry.mk (some "2024-01-10T08:00:00") none 1] 7 none
    [CEntry.mk (some "2024-01-05") none 0] (by decide)⟩

/-! ## C4: `_with_place` -/

/-- C4: for every place-reference URL whose trailing path segment parses as an
integer identifier, `_with_place` looks the identifier up in the dataset's
place store and invokes `fn` with the serialized place when present and with
`None` when absent (a dangling reference), never raising an error: the result
is `fn` applied to the looked-up place's serialization, `none` when the
lookup fails. -/
theorem with_place_resolution (places : List (Int × Place)) (url : String) (pid : Int)
    (hparse : pyInt (lastSeg url) = Except.ok pid) :
    with_place places url
      = Except.ok (.fn (((places.find? (fun q => q.1 == pid)).map (fun q => q.2)).map
          Place.serialize)) := by
  unfold with_place get_place_data_for_url
  rw [hparse]
  cases hfind : (places.find? (fun q => q.1 == pid)).map (fun q => q.2) with
  | none => simp [hfind]
  | some p => simp [hfind]

/-- Witness for C4: a store holding place 42; resolving `.../places/42` gives
`fn` the serialized place, and the dangling `.../places/999` gives `fn` an
absent (`none`) scope without an error. -/
theorem with_place_resolution_witness :
    pyInt (lastSeg "https://api.example.org/api/places/42") = Except.ok 42 ∧
    with_place [((42 : Int), Place.mk (PlaceSer.mk [("location_type", "bench")]))]
        "https://api.example.org/api/places/42"
      = Except.ok (.fn ((([((42 : Int), Place.mk (PlaceSer.mk [("location_type", "bench")]))].find?
            (fun q => q.1 == (42 : Int))).map (fun q => q.2)).map Place.serialize)) ∧
    with_place [((42 : Int), Place.mk (PlaceSer.mk [("location_type", "bench")]))]
        "https://api.example.org/api/places/999"
      = Except.ok (.fn none) :=
  ⟨by decide, with_place_resolution _ _ _ (by decide), by decide⟩

/-! ## C5 and C6: `_annotate_with_places` -/

theorem set_append_length {α : Type} (l : List α) (a b : α) :
    (l ++ [a]).set l.length b = l ++ [b] := by
  induction l with
  | nil => rfl
  | cons x xs ih => simp [List.set, ih]

theorem checkSub_elim {store : Store} {v : PyVal} (h : checkSub store v = true) :
    ∃ r d url pid, v = PyVal.pyref r ∧ store[r]? = some d ∧
      dictGet d "place" = Except.ok (PyVal.pystr url) ∧
      pyInt (lastSeg url) = Except.ok pid := by
  cases v with
  | pyref r =>
    cases hsr : store[r]? with
    | none => simp [checkSub, hsr] at h
    | some d =>
      cases hget : dictGet d "place" with
      | error e => simp [checkSub, hsr, hget] at h
      | ok urlv =>
        cases urlv with
        | pystr url =>
          cases hpi : pyInt (lastSeg url) with
          | error e => simp [checkSub, hsr, hget, hpi] at h
          | ok pid => exact ⟨r, d, url, pid, rfl, hsr, hget, hpi⟩
        | pynone => simp [checkSub, hsr, hget] at h
        | pyref r2 => simp [checkSub, hsr, hget] at h
        | pyplace p => simp [checkSub, hsr, hget] at h
  | pynone => simp [checkSub] at h
  | pystr s => simp [checkSub] at h
  | pyplace p => simp [checkSub] at h

theorem getElem?_append_lt {α : Type} (l ext : List α) {i : Nat} (h : i < l.length) :
    (l ++ ext)[i]? = l[i]? := by
  rw [List.getElem?_append, if_pos h]

theorem checkSub_mono {store : Store} {v : PyVal} (ext : List Dict)
    (h : checkSub store v = true) : checkSub (store ++ ext) v = true := by
  obtain ⟨r, d, url, pid, rfl, hsr, hget, hpi⟩ := checkSub_elim h
  have hr : r < store.length := by
    by_contra hge
    rw [List.getElem?_eq_none (by omega)] at hsr
    exact Option.noConfusion hsr
  have hsr2 : (store ++ ext)[r]? = some d := by
    rw [getElem?_append_lt _ _ hr]
    exact hsr
  simp [checkSub, hsr2, hget, hpi]

theorem get_place_total (places : List (Int × Place)) (url : String) (pid : Int)
    (hpi : pyInt (lastSeg url) = Except.ok pid) :
    ∃ pc, get_place_data_for_url places url = Except.ok pc := by
  have hred : get_place_data_for_url places url =
      match (places.find? (fun q => q.1 == pid)).map (fun q => q.2) with
      | some p => Except.ok (some p.serialize)
      | none => Except.ok none := by
    unfold get_place_data_for_url
    rw [hpi]
  cases hfind : (places.find? (fun q => q.1 == pid)).map (fun q => q.2) with
  | some p => exact ⟨some p.serialize, by rw [hred, hfind]⟩
  | none => exact ⟨none, by rw [hred, hfind]⟩

theorem annotateLoop_cons_eq (places : List (Int × Place)) (store : Store)
    (r : Nat) (rest : List PyVal) (d : Dict) (url : String) (pc : Option PlaceSer)
    (hsr : store[r]? = some d)
    (hget : dictGet d "place" = Except.ok (PyVal.pystr url))
    (hpc : get_place_data_for_url places url = Except.ok pc) :
    annotateLoop places store (PyVal.pyref r :: rest)
      = match annotateLoop places
          (store ++ [dictSet d "place" (pyvalOfPlaceOpt pc)]) rest with
        | .error e => .error e
        | .ok (store3, tail) => .ok (store3, .pyref store.length :: tail) := by
  simp only [annotateLoop, hsr, hget, asStr, hpc, set_append_length]

theorem annotateLoop_spec (places : List (Int × Place)) :
    ∀ (ctx : List PyVal) (store : Store),
      (∀ v ∈ ctx, checkSub store v = true) →
      ∃ store2 L, annotateLoop places store ctx = Except.ok (store2, L) ∧
        store.length ≤ store2.length ∧
        (∀ i, i < store.length → store2[i]? = store[i]?) ∧
        L.length = ctx.length ∧
        (∀ i, i < ctx.length → AnnotatedAt places store store2 ctx L i) := by
  intro ctx
  induction ctx with
  | nil =>
    intro store _h
    exact ⟨store, [], rfl, Nat.le_refl _, fun i _ => rfl, rfl,
      fun i hi => absurd hi (by simp)⟩
  | cons v rest ih =>
    intro store h
    obtain ⟨r, d, url, pid, rfl, hsr, hget, hpi⟩ :=
      checkSub_elim (h _ (List.mem_cons_self _ _))
    obtain ⟨pc, hpc⟩ := get_place_total places url pid hpi
    have hmono : ∀ w ∈ rest,
        checkSub (store ++ [dictSet d "place" (pyvalOfPlaceOpt pc)]) w = true :=
      fun w hw => checkSub_mono _ (h w (List.mem_cons_of_mem _ hw))
    obtain ⟨store2, L, hloop, hlen2, hframe, hLlen, hAnn⟩ :=
      ih (store ++ [dictSet d "place" (pyvalOfPlaceOpt pc)]) hmono
    have hcons := annotateLoop_cons_eq places store r rest d url pc hsr hget hpc
    rw [hloop] at hcons
    have hlenext : (store ++ [dictSet d "place" (pyvalOfPlaceOpt pc)]).length
        = store.length + 1 := by simp
    refine ⟨store2, .pyref store.length :: L, hcons, ?_, ?_, ?_, ?_⟩
    · rw [hlenext] at hlen2
      omega
    · intro i hi
      have hfr := hframe i (by rw [hlenext]; omega)
      rw [hfr, getElem?_append_lt _ _ hi]
    · simp [hLlen]
    · intro i hi
      cases i with
      | zero =>
        refine ⟨r, d, url, pc, store.length, by simp, hsr, hget, hpc, by simp,
          Nat.le_refl _, ?_⟩
        have h0 := hframe store.length (by rw [hlenext]; omega)
        rw [h0, List.getElem?_concat_length]
      | succ j =>
        have hj : j < rest.length := by simp at hi; omega
        obtain ⟨r2, d2, url2, pc2, nr2, hc1, hc2, hc3, hc4, hc5, hc6, hc7⟩ := hAnn j hj
        have hw : PyVal.pyref r2 ∈ rest := List.getElem?_mem hc1
        obtain ⟨r3, d3, url3, pid3, heq, hsr3, hget3, hpi3⟩ :=
          checkSub_elim (h _ (List.mem_cons_of_mem _ hw))
        have hr23 : r3 = r2 := by injection heq.symm
        subst hr23
        have hr2 : r3 < store.length := by
          by_contra hge
          rw [List.getElem?_eq_none (by omega)] at hsr3
          exact Option.noConfusion hsr3
        have happ := getElem?_append_lt store
          [dictSet d "place" (pyvalOfPlaceOpt pc)] hr2
        rw [happ] at hc2
        refine ⟨r3, d2, url2, pc2, nr2, by simpa using hc1, hc2, hc3, hc4,
          by simpa using hc5, ?_, hc7⟩
        rw [hlenext] at hc6
        omega

/-- C5: over a list of well-formed submission references,
`_annotate_with_places` invokes `fn` with a new list in which the `i`-th
entry is a fresh reference — allocated at or beyond the end of the original
store — to a shallow copy of the `i`-th original submission whose `place`
key has been replaced by the resolved, serialized place; every dictionary of
the original store, in particular every original submission, is left
unchanged. -/
theorem annotate_with_places_spec (places : List (Int × Place)) (thisv : List PyVal)
    (store : Store) (ctx : List PyVal)
    (h : ∀ v ∈ ctx, checkSub store v = true) :
    ∃ store2 L, annotate_with_places places thisv store (some ctx)
        = Except.ok (store2, .fn L) ∧
      (∀ i, i < store.length → store2[i]? = store[i]?) ∧
      L.length = ctx.length ∧
      (∀ i, i < ctx.length → AnnotatedAt places store store2 ctx L i) := by
  obtain ⟨store2, L, hloop, _, hframe, hLlen, hAnn⟩ := annotateLoop_spec places ctx store h
  refine ⟨store2, L, ?_, hframe, hLlen, hAnn⟩
  show (match annotateLoop places store ctx with
        | Except.error e => Except.error e
        | Except.ok (store3, annotated) => Except.ok (store3, HCall.fn annotated))
      = Except.ok (store2, HCall.fn L)
  rw [hloop]

/-- Witness for C5: one submission dictionary `{place: "a/1", k: "v"}` in the
store, place 1 present; the block gets a fresh annotated copy and the
original dictionary is untouched. -/
theorem annotate_with_places_spec_witness :
    (∀ v ∈ [PyVal.pyref 0],
      checkSub [[("place", PyVal.pystr "a/1"), ("k", PyVal.pystr "v")]] v = true) ∧
    ∃ store2 L, annotate_with_places [((1 : Int), Place.mk (PlaceSer.mk [("x", "y")]))]
        [] [[("place", PyVal.pystr "a/1"), ("k", PyVal.pystr "v")]]
        (some [PyVal.pyref 0])
        = Except.ok (store2, .fn L) ∧
      (∀ i, i < [[("place", PyVal.pystr "a/1"), ("k", PyVal.pystr "v")]].length →
        store2[i]? = [[("place", PyVal.pystr "a/1"), ("k", PyVal.pystr "v")]][i]?) ∧
      L.length = [PyVal.pyref 0].length ∧
      (∀ i, i < [PyVal.pyref 0].length →
        AnnotatedAt [((1 : Int), Place.mk (PlaceSer.mk [("x", "y")]))]
          [[("place", PyVal.pystr "a/1"), ("k", PyVal.pystr "v")]] store2
          [PyVal.pyref 0] L i) :=
  ⟨by decide, annotate_with_places_spec _ _ _ _ (by decide)⟩

/-- C6: evaluating `_annotate_with_places` on a context containing a `None`
entry.  Contrary to the claim (and to the intent shown by the guard
`submission.copy() if submission is not None else None` on the preceding
line), the unguarded `annotated_submission['place'] =
get_place_data_for_url(submission['place'])` subscripts `None` and raises
`TypeError` instead of passing the entry through. -/
theorem annotate_with_places_none_entry :
    annotate_with_places [] [] [] (some [PyVal.pynone])
      = Except.error PyErr.typeError := by decide

/-! ## C7, C8, C9: the report driver -/

/-- C7 counterexample: with an unrecognized timezone name the run does print
the diagnostic and exit with code 1, but the event trace contains the
template-compilation step — the source compiles the template (lines 121-127)
before resolving the timezone (lines 131-140), so "performs no template
compilation" is false. -/
theorem main_unknown_tz_counterexample :
    Ev.compile ∈ (mainRun (fun _ => false) ⟨some "Foo/Bar", none, none⟩
        ⟨some "t.html", none⟩ "doc" 200).1
    ∧ script_exit (mainRun (fun _ => false) ⟨some "Foo/Bar", none, none⟩
        ⟨some "t.html", none⟩ "doc" 200).2 = 1 := by decide

/-- C7 (amended): an unrecognized timezone name makes the run print the
diagnostic and exit with code 1, but only after the template has already
been compiled (no rendering is attempted); a successful run — known or
absent timezone, email block and postmark token present — exits with
code 0. -/
theorem main_tz_exit_behavior (knownTz : String → Bool) (cfg : Config) (rpt : Report)
    (doc : String) (status : Nat) (tf : String)
    (htf : rpt.summary_template = some tf) (htf2 : tf ≠ "") :
    (localtzOf knownTz cfg rpt = none →
      mainRun knownTz cfg rpt doc status
        = ([Ev.download, Ev.compile, Ev.diagUnknownTz], Except.ok 1)
      ∧ script_exit (mainRun knownTz cfg rpt doc status).2 = 1)
    ∧ (∀ em tok, cfg.email = some em → cfg.postmarkapp_token = some tok →
        localtzOf knownTz cfg rpt ≠ none →
        script_exit (mainRun knownTz cfg rpt doc status).2 = 0) := by
  constructor
  · intro htz
    have hmain : mainRun knownTz cfg rpt doc status
        = ([Ev.download, Ev.compile, Ev.diagUnknownTz], Except.ok 1) := by
      simp [mainRun, htf, htf2, htz]
    exact ⟨hmain, by rw [hmain]; rfl⟩
  · intro em tok hem htok htz
    cases hltz : localtzOf knownTz cfg rpt with
    | none => exact absurd hltz htz
    | some tz =>
      have h0 : (mainRun knownTz cfg rpt doc status).2 = Except.ok 0 := by
        simp only [mainRun, htf, hltz, hem, htok]
        rw [if_neg htf2]
        split
        · split
          · rfl
          · rfl
        · rfl
      rw [h0]
      rfl

/-- Witness for C7 (amended): the unknown-timezone trace at a concrete
config, and exit 0 on a complete successful run (even with a non-200
delivery response). -/
theorem main_tz_exit_behavior_witness :
    mainRun (fun _ => false) ⟨some "Foo/Bar", none, none⟩ ⟨some "t.html", none⟩ "doc" 200
      = ([Ev.download, Ev.compile, Ev.diagUnknownTz], Except.ok 1)
    ∧ script_exit (mainRun (fun _ => true)
        ⟨some "UTC", some ⟨"a", "b", "c", "d"⟩, some "tok"⟩
        ⟨some "t.html", none⟩ "doc" 500).2 = 0 :=
  ⟨((main_tz_exit_behavior (fun _ => false) ⟨some "Foo/Bar", none, none⟩
      ⟨some "t.html", none⟩ "doc" 200 "t.html" rfl (by decide)).1 (by decide)).1,
   (main_tz_exit_behavior (fun _ => true)
      ⟨some "UTC", some ⟨"a", "b", "c", "d"⟩, some "tok"⟩
      ⟨some "t.html", none⟩ "doc" 500 "t.html" rfl (by decide)).2
     ⟨"a", "b", "c", "d"⟩ "tok" rfl rfl (by decide)⟩

/-- C8 counterexample: with `config.timezone = "America/New_York"` and
`report.timezone = "Europe/Berlin"`, the resolved name is the run-level
config's, not the report's — the claimed report-over-config precedence is
false. -/
theorem tz_precedence_counterexample :
    resolve_tzname ⟨some "America/New_York", none, none⟩
        ⟨some "t.html", some "Europe/Berlin"⟩ = some "America/New_York"
    ∧ (some "America/New_York" : Option String) ≠ some "Europe/Berlin" :=
  ⟨by decide, by decide⟩

/-- C8 (amended): the timezone is resolved with the run-level config setting
taking precedence over the report-level setting (a missing or empty value
falls through), and UTC is used when neither is present. -/
theorem tz_resolution_precedence (cfg : Config) (rpt : Report) :
    (∀ s, cfg.timezone = some s → s ≠ "" → resolve_tzname cfg rpt = some s)
    ∧ ((cfg.timezone = none ∨ cfg.timezone = some "") →
        ∀ s, rpt.timezone = some s → s ≠ "" → resolve_tzname cfg rpt = some s)
    ∧ ((cfg.timezone = none ∨ cfg.timezone = some "") →
        (rpt.timezone = none ∨ rpt.timezone = some "") →
        resolve_tzname cfg rpt = none
        ∧ ∀ k : String → Bool, localtzOf k cfg rpt = some TzVal.utc) := by
  refine ⟨?_, ?_, ?_⟩
  · intro s hs hne
    simp [resolve_tzname, pyOr, hs, hne]
  · rintro (hc | hc) s hs hne <;> simp [resolve_tzname, pyOr, hc, hs, hne]
  · rintro (hc | hc) (hr | hr) <;>
      exact ⟨by simp [resolve_tzname, pyOr, hc, hr],
        fun k => by simp [localtzOf, resolve_tzname, pyOr, hc, hr]⟩

/-- Witness for C8 (amended) at the counterexample's configuration. -/
theorem tz_resolution_precedence_witness :
    resolve_tzname ⟨some "America/New_York", none, none⟩
        ⟨some "t.html", some "Europe/Berlin"⟩ = some "America/New_York" :=
  (tz_resolution_precedence ⟨some "America/New_York", none, none⟩
      ⟨some "t.html", some "Europe/Berlin"⟩).1 "America/New_York" rfl (by decide)

/-- C9 counterexample: with no email block in the run config and a non-blank
document, rendering completes (the trace contains the render step and the
document is printed) yet the run dies with a `KeyError` from
`config['email']['sender']` and the process exits 1 — the exit code does not
reflect only rendering success. -/
theorem email_missing_block_counterexample :
    Ev.render ∈ (mainRun (fun _ => true) ⟨none, none, none⟩
        ⟨some "t.html", none⟩ "doc" 200).1
    ∧ script_exit (mainRun (fun _ => true) ⟨none, none, none⟩
        ⟨some "t.html", none⟩ "doc" 200).2 = 1 := by decide

/-- C9 (amended): the rendered document is posted only when the email block
and the postmark token are present and the document is non-blank; on a
non-success delivery response a warning is logged and the run still returns
0; but when the email block is absent the run raises `KeyError` after
printing the document (exit 1), so the exit code does not reflect rendering
success alone. -/
theorem email_delivery_behavior (knownTz : String → Bool) (cfg : Config) (rpt : Report)
    (doc : String) (status : Nat) (tf : String)
    (htf : rpt.summary_template = some tf) (htf2 : tf ≠ "")
    (tz : TzVal) (htz : localtzOf knownTz cfg rpt = some tz) :
    (Ev.post ∈ (mainRun knownTz cfg rpt doc status).1 →
      cfg.email ≠ none ∧ cfg.postmarkapp_token ≠ none ∧ pyStrip doc ≠ "")
    ∧ (∀ em tok, cfg.email = some em → cfg.postmarkapp_token = some tok →
        (mainRun knownTz cfg rpt doc status).2 = Except.ok 0
        ∧ (pyStrip doc ≠ "" → status ≠ 200 →
            Ev.warnNonSuccess ∈ (mainRun knownTz cfg rpt doc status).1)
        ∧ (pyStrip doc = "" → Ev.post ∉ (mainRun knownTz cfg rpt doc status).1))
    ∧ (cfg.email = none →
        (mainRun knownTz cfg rpt doc status).2 = Except.error PyErr.keyError) := by
  cases hem : cfg.email with
  | none =>
    have hred : mainRun knownTz cfg rpt doc status
        = ([Ev.download, Ev.compile, Ev.convert, Ev.convert, Ev.convert,
            Ev.render, Ev.printDoc], Except.error PyErr.keyError) := by
      simp [mainRun, htf, htf2, htz, hem]
    refine ⟨?_, ?_, ?_⟩
    · intro hpost
      rw [hred] at hpost
      simp at hpost
    · intro em tok hem2 _htok
      exact Option.noConfusion hem2
    · intro _
      rw [hred]
  | some em =>
    cases htok : cfg.postmarkapp_token with
    | none =>
      have hred : mainRun knownTz cfg rpt doc status
          = ([Ev.download, Ev.compile, Ev.convert, Ev.convert, Ev.convert,
              Ev.render, Ev.printDoc], Except.error PyErr.keyError) := by
        simp [mainRun, htf, htf2, htz, hem, htok]
      refine ⟨?_, ?_, ?_⟩
      · intro hpost
        rw [hred] at hpost
        simp at hpost
      · intro em2 tok hem2 htok2
        exact Option.noConfusion htok2
      · intro hem2
        exact Option.noConfusion hem2
    | some tok =>
      by_cases hstrip : pyStrip doc = ""
      · have hred : mainRun knownTz cfg rpt doc status
            = ([Ev.download, Ev.compile, Ev.convert, Ev.convert, Ev.convert,
                Ev.render, Ev.printDoc], Except.ok 0) := by
          simp [mainRun, htf, htf2, htz, hem, htok, hstrip]
        refine ⟨?_, ?_, ?_⟩
        · intro hpost
          rw [hred] at hpost
          simp at hpost
        · intro em2 tok2 _ _
          refine ⟨by rw [hred], fun hs _ => absurd hstrip hs, fun _ => ?_⟩
          rw [hred]
          simp
        · intro hem2
          exact Option.noConfusion hem2
      · by_cases hst : status = 200
        · have hred : mainRun knownTz cfg rpt doc status
              = ([Ev.download, Ev.compile, Ev.convert, Ev.convert, Ev.convert,
                  Ev.render, Ev.printDoc, Ev.post], Except.ok 0) := by
            simp [mainRun, htf, htf2, htz, hem, htok, hstrip, hst]
          refine ⟨?_, ?_, ?_⟩
          · intro _
            exact ⟨by simp, by simp, hstrip⟩
          · intro em2 tok2 _ _
            exact ⟨by rw [hred], fun _ hs2 => absurd hst hs2, fun hs => absurd hs hstrip⟩
          · intro hem2
            exact Option.noConfusion hem2
        · have hred : mainRun knownTz cfg rpt doc status
              = ([Ev.download, Ev.compile, Ev.convert, Ev.convert, Ev.convert,
                  Ev.render, Ev.printDoc, Ev.post, Ev.warnNonSuccess], Except.ok 0) := by
            simp [mainRun, htf, htf2, htz, hem, htok, hstrip, hst]
          refine ⟨?_, ?_, ?_⟩
          · intro _
            exact ⟨by simp, by simp, hstrip⟩
          · intro em2 tok2 _ _
            refine ⟨by rw [hred], fun _ _ => ?_, fun hs => absurd hs hstrip⟩
            rw [hred]
            simp
          · intro hem2
            exact Option.noConfusion hem2

/-- Witness for C9 (amended): email block and token present, non-blank
document, non-success (500) delivery response: the run returns 0 and the
trace records the warning. -/
theorem email_delivery_behavior_witness :
    ((mainRun (fun _ => true) ⟨none, some ⟨"s", "r", "subj", "bcc"⟩, some "tok"⟩
        ⟨some "t.html", none⟩ "hello" 500).2 = Except.ok 0
      ∧ (pyStrip "hello" ≠ "" → (500 : Nat) ≠ 200 →
          Ev.warnNonSuccess ∈ (mainRun (fun _ => true)
            ⟨none, some ⟨"s", "r", "subj", "bcc"⟩, some "tok"⟩
            ⟨some "t.html", none⟩ "hello" 500).1)
      ∧ (pyStrip "hello" = "" → Ev.post ∉ (mainRun (fun _ => true)
            ⟨none, some ⟨"s", "r", "subj", "bcc"⟩, some "tok"⟩
            ⟨some "t.html", none⟩ "hello" 500).1)) :=
  (email_delivery_behavior (fun _ => true) ⟨none, some ⟨"s", "r", "subj", "bcc"⟩, some "tok"⟩
      ⟨some "t.html", none⟩ "hello" 500 "t.html" rfl (by decide) TzVal.utc (by decide)).2.1
    ⟨"s", "r", "subj", "bcc"⟩ "tok" rfl rfl

